import Mathlib

/-!
Verification development for the StarPing Planet probe agent.

The Go sources are shallowly embedded:
* `time.Time` / `time.Duration` become `Int` (nanoseconds); `t.Before u` is `t < u`
  and `t.Sub u` is `t - u`.
* `net.IP` becomes `String` (the textual address); `IP.Equal` is string equality.
* Go `float64` values become `GFloat`: exact rationals extended with the IEEE 754
  special values NaN, +Inf and -Inf.  Arithmetic on the special values follows
  IEEE 754 / Go `math`; finite arithmetic is exact (rounding is not modelled).
* `math.Sqrt` composed with the NaN/+Inf clamp used by the sources is modelled
  symbolically by `sqrtClamp`, which records either the clamped zero or the
  radicand whose positive square root is reported.
* channels delivering results become logs of delivered results; the concurrent
  request table (`ConMapRequest`, whose implementation is not part of these
  sources) is modelled from the spec as an association list keyed by sequence
  number.
-/

namespace StarPing

/-- Go `float64`: exact rationals plus IEEE special values. -/
inductive GFloat where
  | nan : GFloat
  | pinf : GFloat
  | ninf : GFloat
  | fin (q : ℚ) : GFloat
deriving DecidableEq, Repr

namespace GFloat

/-- IEEE negation. -/
def neg : GFloat → GFloat
  | nan => nan
  | pinf => ninf
  | ninf => pinf
  | fin q => fin (-q)

/-- IEEE addition (exact on finite values). -/
def add : GFloat → GFloat → GFloat
  | nan, _ => nan
  | _, nan => nan
  | pinf, ninf => nan
  | ninf, pinf => nan
  | pinf, _ => pinf
  | _, pinf => pinf
  | ninf, _ => ninf
  | _, ninf => ninf
  | fin a, fin b => fin (a + b)

/-- IEEE subtraction, `x - y = x + (-y)`. -/
def sub (x y : GFloat) : GFloat := add x (neg y)

/-- IEEE multiplication (exact on finite values); `±Inf * 0 = NaN`. -/
def mul : GFloat → GFloat → GFloat
  | nan, _ => nan
  | _, nan => nan
  | pinf, pinf => pinf
  | pinf, ninf => ninf
  | ninf, pinf => ninf
  | ninf, ninf => pinf
  | pinf, fin b => if b = 0 then nan else if 0 < b then pinf else ninf
  | fin a, pinf => if a = 0 then nan else if 0 < a then pinf else ninf
  | ninf, fin b => if b = 0 then nan else if 0 < b then ninf else pinf
  | fin a, ninf => if a = 0 then nan else if 0 < a then ninf else pinf
  | fin a, fin b => fin (a * b)

/-- IEEE division (exact on finite values); division by (positive) zero gives a
signed infinity, `0/0` gives NaN, finite over infinite gives zero. -/
def div : GFloat → GFloat → GFloat
  | nan, _ => nan
  | _, nan => nan
  | pinf, pinf => nan
  | pinf, ninf => nan
  | ninf, pinf => nan
  | ninf, ninf => nan
  | pinf, fin b => if 0 ≤ b then pinf else ninf
  | ninf, fin b => if 0 ≤ b then ninf else pinf
  | fin _, pinf => fin 0
  | fin _, ninf => fin 0
  | fin a, fin b =>
      if b = 0 then (if a = 0 then nan else if 0 < a then pinf else ninf)
      else fin (a / b)

/-- Go `math.Min`: NaN-propagating minimum. -/
def fmin : GFloat → GFloat → GFloat
  | nan, _ => nan
  | _, nan => nan
  | ninf, _ => ninf
  | _, ninf => ninf
  | pinf, y => y
  | x, pinf => x
  | fin a, fin b => fin (min a b)

/-- Go `math.Max`: NaN-propagating maximum. -/
def fmax : GFloat → GFloat → GFloat
  | nan, _ => nan
  | _, nan => nan
  | pinf, _ => pinf
  | _, pinf => pinf
  | ninf, y => y
  | x, ninf => x
  | fin a, fin b => fin (max a b)

end GFloat

/-- Result of `math.Sqrt` followed by the clamp
`if math.IsNaN(x) || math.IsInf(x, 1) { x = 0 }` used by the sources:
either the clamped zero (radicand was NaN, ±Inf or negative, or the square
root itself was +Inf), or the positive square root of the recorded
nonnegative rational radicand. -/
inductive SqrtClamped where
  | zero : SqrtClamped
  | sqrtOf (q : ℚ) : SqrtClamped
deriving DecidableEq, Repr

/-- Model of `math.Sqrt` then clamp: `Sqrt` of NaN or a negative value is NaN and of
+Inf is +Inf, so those inputs are clamped to 0; a finite nonnegative radicand
yields its (finite, non-NaN) positive square root, which the clamp keeps. -/
def sqrtClamp : GFloat → SqrtClamped
  | GFloat.fin q => if 0 ≤ q then SqrtClamped.sqrtOf q else SqrtClamped.zero
  | _ => SqrtClamped.zero

/-- Model of `network.Result` (part_001): outcome of one probe. -/
structure Result where
  AddrIP : String
  Latency : ℤ
  Code : ℕ
deriving DecidableEq, Repr

/-- Model of `float64(result.Latency) / float64(time.Millisecond)`: nanoseconds to
milliseconds, exactly. -/
def latencyMs (r : Result) : ℚ := (r.Latency : ℚ) / 1000000

/-- Model of `network.ICMPRequest` (part_001): a pending probe.  The `delivery`
channel is modelled by the dispatcher's delivery log. -/
structure ICMPRequest where
  Seq : ℕ
  ID : ℕ
  TargetIP : String
  Deadline : ℤ
  IssueTime : ℤ
deriving DecidableEq, Repr

/-- Model of `ICMPRequest.SetTimeout`: stamp the issue time and deadline. -/
def ICMPRequest.SetTimeout (r : ICMPRequest) (now : ℤ) (duration : ℤ) : ICMPRequest :=
  { r with IssueTime := now, Deadline := now + duration }

/-- Model of `ICMPRequest.Passed`: `r.Deadline.Before(time)`. -/
def ICMPRequest.Passed (r : ICMPRequest) (time : ℤ) : Prop := r.Deadline < time

instance (r : ICMPRequest) (t : ℤ) : Decidable (r.Passed t) := by
  unfold ICMPRequest.Passed; infer_instance

/-- Model of `network.ICMPResponse` (part_001): parsed inbound packet. -/
structure ICMPResponse where
  Seq : ℕ
  ID : ℕ
  AddrIP : String
  Received : ℤ
  TargetIP : String
  Code : ℕ
deriving DecidableEq, Repr

/-- The timeout result `Result{Code: 256}` (zero values elsewhere). -/
def timeoutResult : Result := { AddrIP := "", Latency := 0, Code := 256 }

/-- Model of `ICMPRequest.Deliver` (part_001 lines 84-110).  `none` models the Go
`nil` response used by the timeout sweep.  The Go function sends at most one
`Result` on the request's channel and reports whether it did; here
`some res` models `true` with `res` sent, `none` models `false`. -/
def ICMPRequest.Deliver (r : ICMPRequest) (response : Option ICMPResponse) :
    Option Result :=
  match response with
  | none => some timeoutResult
  | some resp =>
      if resp.ID = r.ID ∧ resp.TargetIP = r.TargetIP then
        if r.Passed resp.Received then
          some timeoutResult
        else
          some { AddrIP := resp.AddrIP, Latency := resp.Received - r.IssueTime,
                 Code := resp.Code }
      else
        none

/-- Modelled from the spec: the outstanding-probe table (`ConMapRequest`,
whose implementation is not among these sources).  The spec requires a map
keyed by seq supporting insert, get, remove and iteration over (key, value)
snapshots; it is modelled as an association list with unique keys. -/
abbrev ProbeTable := List (ℕ × ICMPRequest)

/-- Table lookup by sequence number (`queue.Get`). -/
def ProbeTable.get (t : ProbeTable) (seq : ℕ) : Option ICMPRequest :=
  (List.find? (fun p => p.1 = seq) t).map (·.2)

/-- Table removal by sequence number (`queue.Remove`). -/
def ProbeTable.remove (t : ProbeTable) (seq : ℕ) : ProbeTable :=
  List.filter (fun p => ¬ p.1 = seq) t

/-- Keys are pairwise distinct (the spec calls a seq collision a
configuration error and asks implementers to fail fast on insert). -/
def ProbeTable.uniqueKeys (t : ProbeTable) : Prop :=
  (List.map Prod.fst t).Nodup

/-- Dispatcher state: the outstanding-probe table plus the log of results
delivered to request sinks (each entry tagged with the request's seq). -/
structure DispatchState where
  table : ProbeTable
  delivered : List (ℕ × Result)

/-- Response half of one `icmpDispatcher` iteration (part_001 lines 537-543):
look the response's seq up; if present, `Deliver`; if delivery happened,
remove the entry. -/
def processResponse (st : DispatchState) (resp : ICMPResponse) : DispatchState :=
  match st.table.get resp.Seq with
  | none => st
  | some request =>
      match request.Deliver (some resp) with
      | some res =>
          { table := st.table.remove resp.Seq,
            delivered := st.delivered ++ [(resp.Seq, res)] }
      | none => st

/-- Timeout sweep of one `icmpDispatcher` iteration (part_001 lines 545-554):
every table entry whose deadline passed `now` gets `Deliver(nil)` (always a
code-256 result) and its key is removed. -/
def sweepTimeouts (st : DispatchState) (now : ℤ) : DispatchState :=
  { table := List.filter (fun p => ¬ p.2.Passed now) st.table,
    delivered := st.delivered ++
      (List.filter (fun p => decide (p.2.Passed now)) st.table).map
        (fun p => (p.1, timeoutResult)) }

/-- One `icmpDispatcher` loop iteration: `now` is captured at the top; the
select yields either a response (from v4 or v6) or only the tick; then the
sweep runs. -/
inductive DispEvent where
  | resp (r : ICMPResponse) (now : ℤ)
  | tick (now : ℤ)
deriving DecidableEq, Repr

/-- One full dispatcher iteration. -/
def dispStep (st : DispatchState) : DispEvent → DispatchState
  | DispEvent.resp r now => sweepTimeouts (processResponse st r) now
  | DispEvent.tick now => sweepTimeouts st now

/-- A whole dispatcher run over a sequence of iterations. -/
def dispRun (st : DispatchState) (evs : List DispEvent) : DispatchState :=
  evs.foldl dispStep st

/-- How many results the dispatcher has delivered to the sink of the request
with key `seq`. -/
def deliveredCount (st : DispatchState) (seq : ℕ) : ℕ :=
  st.delivered.countP (fun p => decide (p.1 = seq))

/-- How many table entries carry the key `seq`. -/
def keyCount (t : ProbeTable) (seq : ℕ) : ℕ :=
  t.countP (fun p => decide (p.1 = seq))

/-- The `now` captured at the top of a dispatcher iteration. -/
def eventNow : DispEvent → ℤ
  | DispEvent.resp _ now => now
  | DispEvent.tick now => now

/-- Environment of one `ICMPManager.Issue` call: which of its fallible
steps succeed.  `isIPAddr` is the `ip.(*net.IPAddr)` type assertion,
`dialOk` the `net.Dial` of the raw socket, `setTTLOk` the
`SetTTL`/`SetHopLimit` call, `writeOk` the final `conn.Write`. -/
structure IssueEnv where
  isIPAddr : Bool
  dialOk : Bool
  setTTLOk : Bool
  writeOk : Bool

/-- Model of `ICMPManager.Issue` (part_001 lines 456-523).  Returns `none` exactly
where the Go function returns a nil channel; on success returns the request
inserted into the table (its sink is the returned channel).  `counter` is
the manager's 16-bit counter, `id` the random 16-bit id, `now` the insertion
time used by the table's `Set` to stamp `SetTimeout`. -/
def ICMPManager.Issue (env : IssueEnv) (targetIP : String) (counter : ℕ)
    (id : ℕ) (timeout : ℤ) (now : ℤ) : Option ICMPRequest :=
  if ¬ env.isIPAddr then none
  else if ¬ env.dialOk then none
  else if ¬ env.setTTLOk then none
  else
    some (ICMPRequest.SetTimeout
      { Seq := counter % 65536, ID := id % 65536, TargetIP := targetIP,
        Deadline := 0, IssueTime := 0 } now timeout)

/-! ### Ping (src/tools/ping.go) -/

/-- The value of `math.MaxFloat64`, exactly. -/
def maxFloat64 : ℚ := (2 ^ 53 - 1) * 2 ^ 971

/-- The running accumulators of the `Ping` loop.  `S2` is the `StdDev`
field, which the loop uses as the sum of squares. -/
structure PingAcc where
  Avg : GFloat
  Min : GFloat
  Max : GFloat
  S2 : GFloat
  Drop : ℕ
deriving DecidableEq, Repr

/-- Accumulator values before the loop (`Min = math.MaxFloat64`, the other
floats at their zero value). -/
def pingAccInit : PingAcc :=
  { Avg := GFloat.fin 0, Min := GFloat.fin maxFloat64, Max := GFloat.fin 0,
    S2 := GFloat.fin 0, Drop := 0 }

/-- One iteration of the `Ping` loop body (ping.go lines 80-89). -/
def pingStep (acc : PingAcc) (result : Result) : PingAcc :=
  if result.Code ≠ 257 then { acc with Drop := acc.Drop + 1 }
  else
    let tf := GFloat.fin (latencyMs result)
    { acc with
        Avg := acc.Avg.add tf,
        Min := GFloat.fmin acc.Min tf,
        Max := GFloat.fmax acc.Max tf,
        S2 := acc.S2.add (tf.mul tf) }

/-- The final fields of `PingStat.Stat`.  `StdDev` is the `math.Sqrt` result
after the NaN/+Inf clamp; in the all-drop branch the field keeps its value 0
(no success ever added to it), rendered as `SqrtClamped.zero`. -/
structure PingStatData where
  Timeout : Bool
  Avg : GFloat
  Min : GFloat
  Max : GFloat
  StdDev : SqrtClamped
  Drop : ℕ
  Total : ℕ
deriving DecidableEq, Repr

/-- The standard-deviation expression of ping.go lines 104-105 (and, with the
same shape, of part_000 lines 235-236), applied to already-divided `avg`:
`(S2 / succeed - avg * avg) * succeed * (total - 1) / total / (succeed - 1)`,
then `math.Sqrt` and the NaN/+Inf clamp. -/
def stdDevExpr (s2 avg s t : GFloat) : SqrtClamped :=
  sqrtClamp (((((s2.div s).sub (avg.mul avg)).mul s).mul
    (t.sub (GFloat.fin 1))).div t |>.div (s.sub (GFloat.fin 1)))

/-- Model of `tools.Ping` (ping.go lines 67-110) as a function of the probe results
the loop receives; `config.Count` equals `results.length`. -/
def Ping (results : List Result) : PingStatData :=
  let total := results.length
  let a := results.foldl pingStep pingAccInit
  if total = a.Drop then
    { Timeout := true, Avg := a.Avg, Min := GFloat.fin 0, Max := a.Max,
      StdDev := SqrtClamped.zero, Drop := a.Drop, Total := total }
  else
    let s := GFloat.fin ((total - a.Drop : ℕ) : ℚ)
    let t := GFloat.fin (total : ℚ)
    let avg := a.Avg.div s
    { Timeout := false, Avg := avg, Min := a.Min, Max := a.Max,
      StdDev := stdDevExpr a.S2 avg s t, Drop := a.Drop, Total := total }

/-- Modelled from the spec: the probes of a run that succeeded (code 257). -/
def pingSuccesses (results : List Result) : List Result :=
  results.filter (fun r => r.Code = 257)

/-- Modelled from the spec: the sum of the successful latencies, in ms. -/
def sumLatMs (l : List Result) : ℚ := (l.map latencyMs).sum

/-- Modelled from the spec: the sum of squares of the latencies, in ms. -/
def sumSqLatMs (l : List Result) : ℚ :=
  (l.map (fun r => latencyMs r * latencyMs r)).sum

/-- Modelled from the spec: "the positive square root of
`(sumSquares/succeed - mean^2) * succeed * (total-1) / total / (succeed-1)`.
If result is NaN or +Inf, clamp to 0", where `mean = sum/succeed`. -/
def specStdDev (sum sumsq : ℚ) (succeed total : ℕ) : SqrtClamped :=
  let m := GFloat.fin (succeed : ℚ)
  let n := GFloat.fin (total : ℚ)
  let mean := (GFloat.fin sum).div m
  sqrtClamp ((((((GFloat.fin sumsq).div m).sub (mean.mul mean)).mul m).mul
    (n.sub (GFloat.fin 1))).div n |>.div (m.sub (GFloat.fin 1)))

/-! ### MTR (src/unnamed/part_000) -/

/-- Model of `tools.IcmpUnreachableMark` (part_000 lines 14-23). -/
def icmpUnreachableMark : ℕ → Option String
  | 0 => some "!N"
  | 1 => some "!H"
  | 2 => some "!P"
  | 4 => some "!F"
  | 5 => some "!S"
  | 13 => some "!X"
  | 14 => some "!V"
  | 15 => some "!C"
  | _ => none

/-- Model of `tools.HopInfo` (part_000 lines 34-38): the map key used for the per-TTL
address set.  Distinct structs are distinct keys (equality is on all three
fields). -/
structure HopInfo where
  IP : String
  RDNS : String
  Code : ℕ
deriving DecidableEq, Repr

/-- Model of `HopInfo.String` (part_000 lines 40-53): address, then `(rdns)` when
nonempty, then the unreachable mark (or `!<code>`) when the code is below
256. -/
def HopInfo.render (i : HopInfo) : String :=
  let s := i.IP
  let s := if i.RDNS = "" then s else s ++ "(" ++ i.RDNS ++ ")"
  if i.Code < 256 then
    match icmpUnreachableMark i.Code with
    | some m => s ++ " " ++ m
    | none => s ++ " !<" ++ Nat.repr i.Code ++ ">"
  else s

/-- The per-TTL accumulator `tools.mtrHopStat` (part_000 lines 106-114).
`IP` is the `map[HopInfo]struct{}` key set, kept as a duplicate-free list in
insertion order; `S2` is the `StdDev` field used as the sum of squares. -/
structure MtrHopAcc where
  IP : List HopInfo
  Avg : GFloat
  Min : GFloat
  Max : GFloat
  S2 : GFloat
  Drop : ℕ
  Total : ℕ
deriving DecidableEq, Repr

/-- Key insertion into the `map[HopInfo]struct{}` set. -/
def insertHop (l : List HopInfo) (h : HopInfo) : List HopInfo :=
  if h ∈ l then l else l ++ [h]

/-- A fresh accumulator (part_000 lines 152-155: `Min = math.MaxFloat64`,
empty address set, zero values elsewhere). -/
def mtrHopInit : MtrHopAcc :=
  { IP := [],
    Avg := GFloat.fin 0,
    Min := GFloat.fin maxFloat64,
    Max := GFloat.fin 0,
    S2 := GFloat.fin 0,
    Drop := 0,
    Total := 0 }

/-- Replace the element at index `i`. -/
def listUpdate {α : Type} (l : List α) (i : ℕ) (f : α → α) : List α :=
  match l, i with
  | [], _ => []
  | x :: xs, 0 => f x :: xs
  | x :: xs, n + 1 => x :: listUpdate xs n f

/-- The non-timeout update of one inner-loop iteration (part_000 lines
165-173): record the responder in the address set and fold the latency into
the accumulators. -/
def hopRecord (r : Result) (a : MtrHopAcc) : MtrHopAcc :=
  let tf := GFloat.fin (latencyMs r)
  { a with
      IP := insertHop a.IP { IP := r.AddrIP, RDNS := "", Code := r.Code },
      Avg := a.Avg.add tf,
      Min := GFloat.fmin a.Min tf,
      Max := GFloat.fmax a.Max tf,
      S2 := a.S2.add (tf.mul tf) }

/-- The probing state of one MTR run: the accumulators plus `minHop` and
`maxHop` (part_000 lines 149-151). -/
structure MtrAcc where
  stats : List MtrHopAcc
  minHop : ℕ
  maxHop : ℕ
deriving DecidableEq, Repr

/-- State before the first round: `minHop = maxTTL`, `maxHop = 0`. -/
def mtrInit (maxTTL : ℕ) : MtrAcc :=
  { stats := List.replicate maxTTL mtrHopInit, minHop := maxTTL, maxHop := 0 }

/-- The inner TTL loop of one MTR round (part_000 lines 158-184).  `res j`
is the result of the probe issued with TTL `j + 1`; `rem` is the number of
TTL indices not yet visited (`maxTTL - j`).  On a result with code other
than 256 and 258 the loop updates `minHop`/`maxHop` and breaks. -/
def mtrWalk (res : ℕ → Result) : ℕ → ℕ → MtrAcc → MtrAcc
  | _, 0, acc => acc
  | j, rem + 1, acc =>
    let acc1 : MtrAcc :=
      { acc with stats := listUpdate acc.stats j (fun a => { a with Total := a.Total + 1 }) }
    let r := res j
    if r.Code = 256 then
      mtrWalk res (j + 1) rem
        { acc1 with stats := listUpdate acc1.stats j (fun a => { a with Drop := a.Drop + 1 }) }
    else
      let acc2 : MtrAcc := { acc1 with stats := listUpdate acc1.stats j (hopRecord r) }
      if r.Code ≠ 258 then
        { acc2 with
            minHop := min acc2.minHop j,
            maxHop := max acc2.maxHop (j + 1) }
      else
        mtrWalk res (j + 1) rem acc2

/-- The round loop of `tools.MTR` (part_000 lines 157-185): `count` rounds,
each walking TTL indices `0 .. maxTTL - 1`;  `oracle i j` is the result the
manager returns for round `i` at TTL index `j`. -/
def mtrRounds (oracle : ℕ → ℕ → Result) (count maxTTL : ℕ) : MtrAcc :=
  (List.range count).foldl (fun acc i => mtrWalk (oracle i) 0 maxTTL acc) (mtrInit maxTTL)

/-- The tail-trim scan of `tools.MTR` (part_000 lines 186-209), with the
current index as first numeric argument, the accumulated rendered-string set
`h` (a list; only membership matters), and the current `maxHop`.  An
all-drop TTL is skipped without touching `maxHop`; a TTL whose key-set size
matches its predecessor has its rendered strings added to `h`, and if every
rendered string of the predecessor is in `h` the scan sets `maxHop` to the
current index and descends; any other outcome ends the scan. -/
def mtrTrim (stats : List MtrHopAcc) (minHop : ℕ) : ℕ → List String → ℕ → ℕ
  | 0, _, maxHop => maxHop
  | i + 1, h, maxHop =>
    if i + 1 ≤ minHop then maxHop
    else
      let si := stats.getD (i + 1) mtrHopInit
      let sp := stats.getD i mtrHopInit
      if si.Drop = si.Total then mtrTrim stats minHop i h maxHop
      else if si.IP.length = sp.IP.length then
        let h2 := h ++ si.IP.map HopInfo.render
        if sp.IP.all (fun k => decide (k.render ∈ h2)) then
          mtrTrim stats minHop i h2 (i + 1)
        else maxHop
      else maxHop

/-- One hop of the reported `tools.MTRHopStat` (part_000 lines 56-66). -/
structure MTRHopStat where
  Index : ℕ
  Timeout : Bool
  IP : List HopInfo
  Avg : GFloat
  Min : GFloat
  Max : GFloat
  StdDev : SqrtClamped
  Drop : ℕ
  Total : ℕ
deriving DecidableEq, Repr

/-- Building one hop of the output (part_000 lines 216-239).  The all-drop
hop keeps the zero values of `MTRHopStat` (`Timeout` set, `Min`, `Avg` and
`StdDev` at 0, empty address list); otherwise the statistics are finalized
with the rDNS names filled in by `rdnsF`. -/
def buildHop (a : MtrHopAcc) (i : ℕ) (rdnsF : String → String) : MTRHopStat :=
  if a.Total = a.Drop then
    { Index := i + 1,
      Timeout := true,
      IP := [],
      Avg := GFloat.fin 0,
      Min := GFloat.fin 0,
      Max := a.Max,
      StdDev := SqrtClamped.zero,
      Drop := a.Drop,
      Total := a.Total }
  else
    let s := GFloat.fin ((a.Total - a.Drop : ℕ) : ℚ)
    let t := GFloat.fin ((a.Total : ℕ) : ℚ)
    let avg := a.Avg.div s
    { Index := i + 1,
      Timeout := false,
      IP := a.IP.map (fun k => { k with RDNS := rdnsF k.IP }),
      Avg := avg,
      Min := a.Min,
      Max := a.Max,
      StdDev := stdDevExpr a.S2 avg s t,
      Drop := a.Drop,
      Total := a.Total }

/-- The output loop (part_000 lines 211-240): hops `0 .. maxHop - 1`,
stopping early at the first hop never probed (`Total = 0`). -/
def buildStats (stats : List MtrHopAcc) (rdnsF : String → String) :
    ℕ → ℕ → List MTRHopStat
  | _, 0 => []
  | i, rem + 1 =>
    let a := stats.getD i mtrHopInit
    if a.Total = 0 then []
    else buildHop a i rdnsF :: buildStats stats rdnsF (i + 1) rem

/-- Model of `tools.MTRStat` (part_000 lines 68-72). -/
structure MTRStat where
  IP : String
  HopCount : ℕ
  Stat : List MTRHopStat
deriving DecidableEq, Repr

/-- Model of `tools.MTR` (part_000 lines 144-245) as a function of the per-round,
per-TTL results.  The returned struct literal (lines 241-244) sets only `IP`
and `Stat`; `HopCount` keeps its zero value. -/
def MTR (oracle : ℕ → ℕ → Result) (count maxTTL : ℕ)
    (rdnsF : String → String) (ip : String) : MTRStat :=
  let acc := mtrRounds oracle count maxTTL
  let m := mtrTrim acc.stats acc.minHop (acc.maxHop - 1) [] acc.maxHop
  { IP := ip, HopCount := 0, Stat := buildStats acc.stats rdnsF 0 m }

/-! ### Report retry pipeline (src/unnamed/part_001, planet.go part) -/

/-- Model of `ReportContainer` as the retry stages see it (the payload and signature
are never inspected there). -/
structure ReportContainer where
  RType : String
  Target : String
deriving DecidableEq, Repr

/-- State of the first retry stage as `deliveryFailed` owns it: the two
bounded channels (buffered queues of equal capacity `cap`; `mainQ` is the
one currently used as `main`), the global `congestWarn` flag, the number of
congestion warnings logged so far, and the discarded reports.  Channel send
is modelled as succeeding exactly when the buffer has room. -/
structure RetryInState where
  mainQ : List ReportContainer
  fullQ : List ReportContainer
  cap : ℕ
  congestWarn : Bool
  warnCount : ℕ
  discarded : List ReportContainer
deriving DecidableEq, Repr

/-- Model of `warnCongested` (part_001 lines 786-792): log iff the flag is unset.
The source never assigns `congestWarn = true`, so the flag is left as-is. -/
def warnCongested (st : RetryInState) : RetryInState :=
  if ¬ st.congestWarn then { st with warnCount := st.warnCount + 1 } else st

/-- One iteration of `deliveryFailed` (part_001 lines 1109-1127): try to
push the failed report into `main`; on a full buffer swap `main` and `full`,
then push if the (new) `main` is empty, else discard with the congestion
warning. -/
def deliveryFailedStep (st : RetryInState) (report : ReportContainer) : RetryInState :=
  if st.mainQ.length < st.cap then { st with mainQ := st.mainQ ++ [report] }
  else
    let m := st.fullQ
    let f := st.mainQ
    if m.length = 0 then { st with mainQ := m ++ [report], fullQ := f }
    else
      warnCongested { st with
        mainQ := m,
        fullQ := f,
        discarded := st.discarded ++ [report] }

/-- The 2-minute throttle ticker (part_001 lines 730-738): it only ever
clears the flag. -/
def congestTickStep (st : RetryInState) : RetryInState :=
  { st with congestWarn := false }

/-! ### Spec-side companion definitions and concrete instances -/

/-- Modelled from the spec: the TTL index at which a round of the MTR inner
loop stops — among the `rem` indices starting at `j`, the first whose result
is a reply with code other than 256 (timeout) and 258 (Time Exceeded), if
any. -/
def walkBreak (res : ℕ → Result) : ℕ → ℕ → Option ℕ
  | _, 0 => none
  | j, rem + 1 =>
    if (res j).Code ≠ 256 ∧ (res j).Code ≠ 258 then some j
    else walkBreak res (j + 1) rem

/-- The stop indices of the rounds of an MTR run that did stop. -/
def roundBreaks (oracle : ℕ → ℕ → Result) (count maxTTL : ℕ) : List ℕ :=
  (List.range count).filterMap (fun i => walkBreak (oracle i) 0 maxTTL)

/-- Modelled from the claim (C4) as stated: scan TTL indices downward from
`maxHop - 1` while the index is above `minHop`; a TTL is trimmed
(`maxHop` set to it) iff all rounds at it were drops or its set of observed
responder addresses equals the preceding TTL's; stop at the first TTL
violating both. -/
def claimTrim (stats : List MtrHopAcc) (minHop : ℕ) : ℕ → ℕ → ℕ
  | 0, maxHop => maxHop
  | i + 1, maxHop =>
    if i + 1 ≤ minHop then maxHop
    else
      let si := stats.getD (i + 1) mtrHopInit
      let sp := stats.getD i mtrHopInit
      if si.Drop = si.Total ∨
          (si.IP.map HopInfo.IP).toFinset = (sp.IP.map HopInfo.IP).toFinset then
        claimTrim stats minHop i (i + 1)
      else maxHop

/-- The amended description of the source's tail trim, written over finite
sets: the accumulated set `h` holds the rendered strings of the non-all-drop
TTLs scanned so far; an all-drop TTL is skipped with `maxHop` untouched; a
TTL is trimmed iff its distinct-key count equals the preceding TTL's and
every rendered string of the preceding TTL lies in `h` after adding the
current TTL's rendered strings; anything else ends the scan. -/
def specTrimAmended (stats : List MtrHopAcc) (minHop : ℕ) :
    ℕ → Finset String → ℕ → ℕ
  | 0, _, maxHop => maxHop
  | i + 1, h, maxHop =>
    if i + 1 ≤ minHop then maxHop
    else
      let si := stats.getD (i + 1) mtrHopInit
      let sp := stats.getD i mtrHopInit
      if si.Drop = si.Total then specTrimAmended stats minHop i h maxHop
      else
        let h2 := h ∪ (si.IP.map HopInfo.render).toFinset
        if si.IP.length = sp.IP.length ∧ ∀ k ∈ sp.IP, HopInfo.render k ∈ h2 then
          specTrimAmended stats minHop i h2 (i + 1)
        else maxHop

/-- A request whose deadline is `IssueTime + 5000000` (5 ms timeout). -/
def reqBoundary : ICMPRequest :=
  ICMPRequest.SetTimeout ⟨7, 1, "192.0.2.1", 0, 0⟩ 0 5000000

/-- A matching response received exactly at the deadline. -/
def respBoundary : ICMPResponse := ⟨7, 1, "192.0.2.1", 5000000, "192.0.2.1", 257⟩

/-- An oracle answering every probe with an Echo Reply from the loopback
address (the spec's "MTR to loopback" scenario). -/
def loopbackOracle : ℕ → ℕ → Result := fun _ _ => ⟨"127.0.0.1", 100000, 257⟩

/-- An oracle answering every probe with Time Exceeded (code 258). -/
def teOracle : ℕ → ℕ → Result := fun _ _ => ⟨"10.0.0.1", 1000000, 258⟩

/-- A three-round, two-TTL network trace: round 0 sees Time Exceeded from
10.0.0.1 then an Echo Reply from 10.0.0.1; round 1 sees an Echo Reply from
10.0.0.1 at the first TTL; round 2 sees Time Exceeded from 10.0.0.1 then
Time Exceeded from 10.0.0.2. -/
def mixedOracle : ℕ → ℕ → Result := fun i j =>
  match i, j with
  | 0, 0 => ⟨"10.0.0.1", 1000000, 258⟩
  | 0, _ => ⟨"10.0.0.1", 2000000, 257⟩
  | 1, _ => ⟨"10.0.0.1", 1500000, 257⟩
  | 2, 0 => ⟨"10.0.0.1", 1000000, 258⟩
  | _, _ => ⟨"10.0.0.2", 3000000, 258⟩

/-- A report container as used in concrete retry-stage scenarios. -/
def rpt (target : String) : ReportContainer := ⟨"ping", target⟩

/-! ### Theorems -/

/-- C2: if the target address family cannot be resolved (the argument is not
an `IPAddr`) or the raw socket cannot be opened (`net.Dial` fails) or the
TTL/hop-limit cannot be set, `ICMPManager.Issue` returns the nil channel
immediately, a failure indication distinguishable from every successful
return. -/
theorem issue_failure_yields_none (env : IssueEnv) (targetIP : String)
    (counter id : ℕ) (timeout now : ℤ)
    (h : env.isIPAddr = false ∨ env.dialOk = false ∨ env.setTTLOk = false) :
    ICMPManager.Issue env targetIP counter id timeout now = none := by
  unfold ICMPManager.Issue
  rcases h with h | h | h <;> simp [h]

/-- Witness for C2 at a concrete environment: the dial failure alone makes
`Issue` return the failure indication. -/
theorem issue_failure_yields_none_witness :
    ICMPManager.Issue ⟨true, false, true, true⟩ "192.0.2.1" 0 1 1000000000 0 = none :=
  issue_failure_yields_none ⟨true, false, true, true⟩ "192.0.2.1" 0 1 1000000000 0
    (Or.inr (Or.inl rfl))

/-- C10: a response whose seq matches an outstanding request but whose
recovered (id, target IP) pair differs from the request's is not delivered:
the response-processing phase of the dispatcher leaves the state (table and
delivery log) unchanged, so the request remains eligible to match a later
response or to time out. -/
theorem mismatched_response_leaves_state (st : DispatchState)
    (resp : ICMPResponse) (req : ICMPRequest)
    (hget : st.table.get resp.Seq = some req)
    (hmis : resp.ID ≠ req.ID ∨ resp.TargetIP ≠ req.TargetIP) :
    processResponse st resp = st := by
  have hdel : req.Deliver (some resp) = none := by
    unfold ICMPRequest.Deliver
    rcases hmis with h | h <;> simp [h]
  unfold processResponse
  rw [hget]
  simp [hdel]

/-- Witness for C10: a concrete mismatching response (same seq 5, wrong id)
leaves a one-entry table untouched. -/
theorem mismatched_response_leaves_state_witness :
    processResponse ⟨[(5, ⟨5, 1, "198.51.100.1", 100, 0⟩)], []⟩
        ⟨5, 2, "10.0.0.9", 50, "198.51.100.1", 257⟩ =
      ⟨[(5, ⟨5, 1, "198.51.100.1", 100, 0⟩)], []⟩ :=
  mismatched_response_leaves_state _ _ ⟨5, 1, "198.51.100.1", 100, 0⟩
    (by decide) (Or.inl (by decide))

/-- C3 as stated is false: `Deliver` treats a response received exactly at
the deadline as in time (`Passed` is a strict inequality on the other side),
so a matching Echo Reply received at `IssueTime + timeout` is delivered with
code 257 and latency equal to the timeout — not strictly less than it. -/
theorem deliver_latency_equal_timeout_counterexample :
    reqBoundary.Deliver (some respBoundary) =
      some { AddrIP := "192.0.2.1", Latency := 5000000, Code := 257 } ∧
    ¬ ((5000000 : ℤ) < 5000000) := by
  constructor
  · rfl
  · decide

/-- C3 amended: every result `Deliver` produces for a request stamped by
`SetTimeout now dur`, from a response received no earlier than `now`, with
code 257, 258 or an unreachable code below 16, has
`0 ≤ latency ∧ latency ≤ dur` (the upper bound is non-strict). -/
theorem delivered_latency_bounds (r0 : ICMPRequest) (now dur : ℤ)
    (resp : ICMPResponse) (res : Result)
    (hrecv : now ≤ resp.Received)
    (hdel : (r0.SetTimeout now dur).Deliver (some resp) = some res)
    (hcode : res.Code = 257 ∨ res.Code = 258 ∨ res.Code < 16) :
    0 ≤ res.Latency ∧ res.Latency ≤ dur := by
  simp only [ICMPRequest.Deliver, ICMPRequest.SetTimeout, ICMPRequest.Passed] at hdel
  split_ifs at hdel with h1 h2
  · cases hdel
    simp [timeoutResult] at hcode
  · cases hdel
    refine ⟨by simp; omega, by simp; omega⟩

/-- Witness for the amended C3 at a concrete in-time response: latency 3 ms
of a 5 ms timeout. -/
theorem delivered_latency_bounds_witness :
    (0 : ℤ) ≤ 3000000 ∧ (3000000 : ℤ) ≤ 5000000 :=
  delivered_latency_bounds ⟨7, 1, "192.0.2.1", 0, 0⟩ 0 5000000
    ⟨7, 1, "192.0.2.1", 3000000, "192.0.2.1", 257⟩
    ⟨"192.0.2.1", 3000000, 257⟩ (by decide) (by decide) (Or.inl rfl)

/-- C6: the struct literal `MTR` returns never assigns `HopCount`, so the
reported `hop_count` stays 0 even when hops are retained; on the spec's
loopback scenario (every probe answered 257 by 127.0.0.1, count 2, max TTL
30) the output retains exactly one hop yet reports `HopCount = 0` instead of
the claimed 1. -/
theorem mtr_hop_count_stays_zero :
    (MTR loopbackOracle 2 30 (fun _ => "") "127.0.0.1").HopCount = 0 ∧
    (MTR loopbackOracle 2 30 (fun _ => "") "127.0.0.1").Stat.length = 1 := by
  constructor
  · rfl
  · rfl

/-- The `Drop` accumulator counts exactly the results with code other than
257. -/
theorem pingFold_drop (results : List Result) (acc : PingAcc) :
    (results.foldl pingStep acc).Drop =
      acc.Drop + (results.filter (fun r => decide (r.Code ≠ 257))).length := by
  induction results generalizing acc with
  | nil => simp
  | cons r rs ih =>
    simp only [List.foldl_cons, List.filter_cons]
    rw [ih]
    by_cases h : r.Code = 257
    · simp [pingStep, h]
    · simp [pingStep, h]
      omega

/-- C7: a Ping run all of whose probes return a code other than 257 (every
non-257 result — timeout, unreachable or Time Exceeded — counts as a drop)
reports `timeout = true`, `min = 0` and `drop = total = count`; and in
general the reported drop count is the number of non-257 results. -/
theorem ping_all_drops_reports_timeout :
    (∀ results : List Result, (∀ r ∈ results, r.Code ≠ 257) →
      (Ping results).Timeout = true ∧ (Ping results).Min = GFloat.fin 0 ∧
      (Ping results).Drop = results.length ∧ (Ping results).Total = results.length) ∧
    (∀ results : List Result,
      (Ping results).Drop = (results.filter (fun r => decide (r.Code ≠ 257))).length) := by
  have hdrop : ∀ results : List Result,
      (results.foldl pingStep pingAccInit).Drop =
        (results.filter (fun r => decide (r.Code ≠ 257))).length := by
    intro results
    rw [pingFold_drop]
    simp [pingAccInit]
  have hproj : ∀ results : List Result,
      (Ping results).Drop = (results.foldl pingStep pingAccInit).Drop := by
    intro results
    unfold Ping
    dsimp only
    split
    · rfl
    · rfl
  constructor
  · intro results hall
    have hfull : (results.filter (fun r => decide (r.Code ≠ 257))) = results :=
      List.filter_eq_self.mpr (fun r hr => by simpa using hall r hr)
    have hlen : (results.foldl pingStep pingAccInit).Drop = results.length := by
      rw [hdrop, hfull]
    refine ⟨?_, ?_, ?_, ?_⟩ <;> simp [Ping, hlen]
  · intro results
    rw [hproj]
    exact hdrop results

/-- Witness for C7 on the spec's unroutable scenario: two timeout results.
Both parts of the theorem are instantiated. -/
theorem ping_all_drops_reports_timeout_witness :
    ((Ping [⟨"", 0, 256⟩, ⟨"", 0, 256⟩]).Timeout = true ∧
      (Ping [⟨"", 0, 256⟩, ⟨"", 0, 256⟩]).Min = GFloat.fin 0 ∧
      (Ping [⟨"", 0, 256⟩, ⟨"", 0, 256⟩]).Drop = 2 ∧
      (Ping [⟨"", 0, 256⟩, ⟨"", 0, 256⟩]).Total = 2) ∧
    (Ping [⟨"", 0, 256⟩, ⟨"", 0, 256⟩]).Drop =
      (([⟨"", 0, 256⟩, ⟨"", 0, 256⟩] : List Result).filter
        (fun r => decide (r.Code ≠ 257))).length :=
  ⟨ping_all_drops_reports_timeout.1 [⟨"", 0, 256⟩, ⟨"", 0, 256⟩] (by decide),
   ping_all_drops_reports_timeout.2 [⟨"", 0, 256⟩, ⟨"", 0, 256⟩]⟩

/-- C9 as stated is false on two counts.  First, with capacity 2, a full
`proc` and a `wait` holding a single report (not full), the incoming report
is discarded even though the wait queue is not full: the source discards
whenever the swapped-in queue is nonempty.  Second, two consecutive
congested discards (capacity 1) each log the warning: `warnCongested` tests
`congestWarn` but nothing ever sets it, so the warning is not one-shot. -/
theorem congested_discard_counterexample :
    ((deliveryFailedStep ⟨[rpt "a", rpt "b"], [rpt "c"], 2, false, 0, []⟩
        (rpt "d")).discarded = [rpt "d"] ∧
      ([rpt "c"] : List ReportContainer).length < 2) ∧
    (deliveryFailedStep
        (deliveryFailedStep ⟨[rpt "a"], [rpt "b"], 1, false, 0, []⟩ (rpt "c"))
        (rpt "d")).warnCount = 2 := by
  constructor
  · exact ⟨rfl, by decide⟩
  · rfl

/-- C9 amended: a report arriving at the first retry stage when `proc` is
full is discarded iff the (swapped-in) `wait` queue is nonempty — not
necessarily full; the congestion warning is logged on every such discard
while `congestWarn` is unset; report processing never changes
`congestWarn`, and the 2-minute ticker only clears it (so the intended
one-shot suppression never engages). -/
theorem congested_discard_characterization (st : RetryInState)
    (report : ReportContainer) :
    ((deliveryFailedStep st report).discarded = st.discarded ++ [report] ↔
      (st.cap ≤ st.mainQ.length ∧ st.fullQ ≠ [])) ∧
    (deliveryFailedStep st report).warnCount = st.warnCount +
      (if st.cap ≤ st.mainQ.length ∧ st.fullQ ≠ [] ∧ st.congestWarn = false
        then 1 else 0) ∧
    (deliveryFailedStep st report).congestWarn = st.congestWarn ∧
    (congestTickStep st).congestWarn = false := by
  unfold deliveryFailedStep warnCongested congestTickStep
  by_cases h1 : st.mainQ.length < st.cap
  · have h1n : ¬ st.cap ≤ st.mainQ.length := by omega
    simp [h1, h1n]
  · have h1n : st.cap ≤ st.mainQ.length := by omega
    by_cases h2 : st.fullQ.length = 0
    · have h2e : st.fullQ = [] := List.length_eq_zero.mp h2
      simp [h1, h2, h2e]
    · have h2e : st.fullQ ≠ [] := by
        intro hh
        exact h2 (by simp [hh])
      by_cases h3 : st.congestWarn
      · simp [h1, h2, h3, h1n, h2e]
      · simp [h1, h2, h3, h1n, h2e]

/-- The inner TTL loop changes `minHop`/`maxHop` exactly at its stop index:
if the walk stops at index `b` (first reply with code other than 256 and
258), `minHop` becomes `min minHop b` and `maxHop` becomes
`max maxHop (b + 1)`; a walk that never stops leaves both untouched. -/
theorem mtrWalk_minmax (res : ℕ → Result) (rem : ℕ) :
    ∀ (j : ℕ) (acc : MtrAcc),
      (mtrWalk res j rem acc).minHop =
        (match walkBreak res j rem with
         | none => acc.minHop
         | some b => min acc.minHop b) ∧
      (mtrWalk res j rem acc).maxHop =
        (match walkBreak res j rem with
         | none => acc.maxHop
         | some b => max acc.maxHop (b + 1)) := by
  induction rem with
  | zero => intro j acc; simp [mtrWalk, walkBreak]
  | succ n ih =>
    intro j acc
    rw [mtrWalk, walkBreak]
    dsimp only
    by_cases h256 : (res j).Code = 256
    · have hq : ¬ ((res j).Code ≠ 256 ∧ (res j).Code ≠ 258) := fun hh => hh.1 h256
      rw [if_pos h256, if_neg hq]
      exact ih (j + 1) _
    · rw [if_neg h256]
      by_cases h258 : (res j).Code = 258
      · have hq : ¬ ((res j).Code ≠ 256 ∧ (res j).Code ≠ 258) := fun hh => hh.2 h258
        have h258n : ¬ ((res j).Code ≠ 258) := fun hh => hh h258
        rw [if_neg hq, if_neg h258n]
        exact ih (j + 1) _
      · have hq : (res j).Code ≠ 256 ∧ (res j).Code ≠ 258 := ⟨h256, h258⟩
        rw [if_pos hq, if_pos h258]
        exact ⟨rfl, rfl⟩

/-- C5 as stated is false for `maxHop`: a round whose only reply is Time
Exceeded (code 258, a non-timeout reply) at TTL index 0 leaves `maxHop` at
0, though the claim requires it to become one past that TTL; the source
advances `maxHop` only on replies with code other than 256 and 258. -/
theorem mtr_maxhop_ignores_te_counterexample :
    (mtrRounds teOracle 1 1).maxHop = 0 ∧ (teOracle 0 0).Code = 258 :=
  ⟨rfl, rfl⟩

/-- C5 amended: across the probing rounds, `minHop` is the smallest TTL
index at which a reply with code other than 256 and 258 was received
(starting at `maxTTL`), and `maxHop` is one past the largest such index
(starting at 0); each round contributes its stop index only, since a round
stops at its first such reply.  Time-Exceeded replies (code 258) do not
advance `maxHop`. -/
theorem mtr_minmax_hop_characterization (oracle : ℕ → ℕ → Result)
    (count maxTTL : ℕ) :
    (mtrRounds oracle count maxTTL).minHop =
      (roundBreaks oracle count maxTTL).foldl min maxTTL ∧
    (mtrRounds oracle count maxTTL).maxHop =
      ((roundBreaks oracle count maxTTL).map (· + 1)).foldl max 0 := by
  induction count with
  | zero => simp [mtrRounds, roundBreaks, mtrInit]
  | succ n ih =>
    have hr : mtrRounds oracle (n + 1) maxTTL =
        mtrWalk (oracle n) 0 maxTTL (mtrRounds oracle n maxTTL) := by
      unfold mtrRounds
      rw [List.range_succ, List.foldl_append]
      rfl
    have hb : roundBreaks oracle (n + 1) maxTTL =
        roundBreaks oracle n maxTTL ++
          (match walkBreak (oracle n) 0 maxTTL with
           | none => []
           | some b => [b]) := by
      unfold roundBreaks
      rw [List.range_succ, List.filterMap_append]
      congr 1
      cases h : walkBreak (oracle n) 0 maxTTL <;> simp [h]
    obtain ⟨ih1, ih2⟩ := ih
    obtain ⟨w1, w2⟩ := mtrWalk_minmax (oracle n) maxTTL 0 (mtrRounds oracle n maxTTL)
    rw [hr, hb]
    cases h : walkBreak (oracle n) 0 maxTTL with
    | none =>
      rw [h] at w1 w2
      simp only [List.append_nil]
      exact ⟨w1.trans ih1, w2.trans ih2⟩
    | some b =>
      rw [h] at w1 w2
      constructor
      · rw [w1, ih1, List.foldl_append]
        simp
      · rw [w2, ih2, List.map_append, List.foldl_append]
        simp

/-- The source's trim scan computes the same result as its finite-set
description whenever the accumulated list and set have the same members. -/
theorem mtrTrim_eq_specTrim (stats : List MtrHopAcc) (minHop : ℕ) :
    ∀ (i : ℕ) (h : List String) (hs : Finset String) (maxHop : ℕ),
      (∀ x : String, x ∈ h ↔ x ∈ hs) →
      mtrTrim stats minHop i h maxHop = specTrimAmended stats minHop i hs maxHop := by
  intro i
  induction i with
  | zero => intro h hs maxHop _; rfl
  | succ n ih =>
    intro h hs maxHop hh
    rw [mtrTrim, specTrimAmended]
    dsimp only
    by_cases hg : n + 1 ≤ minHop
    · rw [if_pos hg, if_pos hg]
    · rw [if_neg hg, if_neg hg]
      by_cases hd : (stats.getD (n + 1) mtrHopInit).Drop =
          (stats.getD (n + 1) mtrHopInit).Total
      · rw [if_pos hd, if_pos hd]
        exact ih h hs maxHop hh
      · rw [if_neg hd, if_neg hd]
        rw [ite_and]
        have hmem : ∀ x : String,
            x ∈ h ++ (stats.getD (n + 1) mtrHopInit).IP.map HopInfo.render ↔
            x ∈ hs ∪ ((stats.getD (n + 1) mtrHopInit).IP.map HopInfo.render).toFinset := by
          intro x
          simp [List.mem_append, Finset.mem_union, hh x, List.mem_toFinset]
        refine if_congr Iff.rfl (if_congr ?_ (ih _ _ _ hmem) rfl) rfl
        constructor
        · intro hall k hk
          have := List.all_eq_true.mp hall k hk
          rw [← hmem]
          simpa using this
        · intro hfa
          refine List.all_eq_true.mpr (fun k hk => ?_)
          have := hfa k hk
          rw [← hmem] at this
          simpa using this

/-- C4 as stated is false.  On the three-round trace `mixedOracle`
(`minHop = 0`, `maxHop = 2` after probing), the source's trim scan removes
TTL index 1 — whose distinct (address, code) key sets are
`{(10.0.0.1, 257), (10.0.0.2, 258)}` against `{(10.0.0.1, 258),
(10.0.0.1, 257)}` at index 0, so neither its address set nor its key set
equals the preceding TTL's and no round at it dropped — while the scan as
claimed (trim iff all-drop or equal address set) trims nothing and leaves
`maxHop = 2`.  The source compares rendered strings accumulated across
scanned TTLs, which conflates codes 257/258 at the same address. -/
theorem mtr_trim_counterexample :
    (mtrRounds mixedOracle 3 2).minHop = 0 ∧
    (mtrRounds mixedOracle 3 2).maxHop = 2 ∧
    mtrTrim (mtrRounds mixedOracle 3 2).stats (mtrRounds mixedOracle 3 2).minHop
      ((mtrRounds mixedOracle 3 2).maxHop - 1) [] (mtrRounds mixedOracle 3 2).maxHop = 1 ∧
    claimTrim (mtrRounds mixedOracle 3 2).stats (mtrRounds mixedOracle 3 2).minHop
      ((mtrRounds mixedOracle 3 2).maxHop - 1) (mtrRounds mixedOracle 3 2).maxHop = 2 := by
  refine ⟨rfl, rfl, rfl, rfl⟩

/-- C4 amended: scanning TTL indices downward from `maxHop - 1` to
`minHop + 1`, an all-drop TTL is skipped with `maxHop` left unchanged; a TTL
whose distinct (address, code) key count equals the preceding TTL's, and
every rendered address string of the preceding TTL already occurs among the
rendered strings accumulated from the non-all-drop TTLs scanned so far
(including the current one), is trimmed by setting `maxHop` to it; any other
TTL ends the scan.  The source's list-and-break implementation equals this
finite-set description. -/
theorem mtr_trim_amended_characterization (stats : List MtrHopAcc)
    (minHop maxHop : ℕ) :
    mtrTrim stats minHop (maxHop - 1) [] maxHop =
      specTrimAmended stats minHop (maxHop - 1) ∅ maxHop :=
  mtrTrim_eq_specTrim stats minHop (maxHop - 1) [] ∅ maxHop (by simp)

/-- The `Avg` and `StdDev` fields accumulate, over the loop, the exact sum
and sum of squares of the successful latencies. -/
theorem pingFold_sums (results : List Result) :
    ∀ (acc : PingAcc) (x y : ℚ), acc.Avg = GFloat.fin x → acc.S2 = GFloat.fin y →
      (results.foldl pingStep acc).Avg =
        GFloat.fin (x + sumLatMs (pingSuccesses results)) ∧
      (results.foldl pingStep acc).S2 =
        GFloat.fin (y + sumSqLatMs (pingSuccesses results)) := by
  induction results with
  | nil =>
    intro acc x y hA hS
    simp [pingSuccesses, sumLatMs, sumSqLatMs, hA, hS]
  | cons r rs ih =>
    intro acc x y hA hS
    simp only [List.foldl_cons]
    by_cases h : r.Code = 257
    · have h1 : (pingStep acc r).Avg = GFloat.fin (x + latencyMs r) := by
        simp [pingStep, h, hA, GFloat.add]
      have h2 : (pingStep acc r).S2 = GFloat.fin (y + latencyMs r * latencyMs r) := by
        simp [pingStep, h, hS, GFloat.add, GFloat.mul]
      obtain ⟨e1, e2⟩ := ih (pingStep acc r) _ _ h1 h2
      have hs1 : sumLatMs (pingSuccesses (r :: rs)) =
          latencyMs r + sumLatMs (pingSuccesses rs) := by
        simp [pingSuccesses, sumLatMs, List.filter_cons, h]
      have hs2 : sumSqLatMs (pingSuccesses (r :: rs)) =
          latencyMs r * latencyMs r + sumSqLatMs (pingSuccesses rs) := by
        simp [pingSuccesses, sumSqLatMs, List.filter_cons, h]
      rw [e1, e2, hs1, hs2]
      constructor
      · congr 1
        ring
      · congr 1
        ring
    · have h1 : (pingStep acc r).Avg = GFloat.fin x := by simp [pingStep, h, hA]
      have h2 : (pingStep acc r).S2 = GFloat.fin y := by simp [pingStep, h, hS]
      obtain ⟨e1, e2⟩ := ih (pingStep acc r) x y h1 h2
      have hs : pingSuccesses (r :: rs) = pingSuccesses rs := by
        simp [pingSuccesses, List.filter_cons, h]
      rw [e1, e2, hs]
      exact ⟨rfl, rfl⟩

/-- Successes and drops partition a Ping run. -/
theorem ping_filter_lengths (results : List Result) :
    (pingSuccesses results).length +
      (results.filter (fun r => decide (r.Code ≠ 257))).length = results.length := by
  have h := List.length_eq_length_filter_add
    (l := results) (fun r : Result => decide (r.Code = 257))
  unfold pingSuccesses
  simp only [ne_eq, decide_not]
  simp only [ne_eq, decide_not] at h
  omega

/-- C8: with at least one success, Ping reports as std_dev the positive
square root of
`(sumSquares/succeed - mean^2) * succeed * (total-1) / total / (succeed-1)`
over the successful latencies, clamped to 0 when NaN or +Inf; and every
non-all-drop MTR hop computes its std_dev by the same formula with the same
clamping from its accumulated sum and sum of squares. -/
theorem std_dev_same_formula :
    (∀ results : List Result, (∃ r ∈ results, r.Code = 257) →
      (Ping results).StdDev =
        specStdDev (sumLatMs (pingSuccesses results))
          (sumSqLatMs (pingSuccesses results))
          (pingSuccesses results).length results.length) ∧
    (∀ (a : MtrHopAcc) (i : ℕ) (rdnsF : String → String) (sum sumsq : ℚ),
      a.Drop < a.Total → a.Avg = GFloat.fin sum → a.S2 = GFloat.fin sumsq →
      (buildHop a i rdnsF).StdDev =
        specStdDev sum sumsq (a.Total - a.Drop) a.Total) := by
  constructor
  · intro results hex
    obtain ⟨hA, hS⟩ := pingFold_sums results pingAccInit 0 0 rfl rfl
    rw [zero_add] at hA hS
    have hdrop := pingFold_drop results pingAccInit
    have hsum := ping_filter_lengths results
    have hpos : 0 < (pingSuccesses results).length := by
      obtain ⟨r, hr, hc⟩ := hex
      have hmem : r ∈ pingSuccesses results := by
        simp [pingSuccesses, List.mem_filter, hr, hc]
      exact List.length_pos.mpr (List.ne_nil_of_mem hmem)
    have hinit : pingAccInit.Drop = 0 := rfl
    rw [hinit, Nat.zero_add] at hdrop
    have hc : ¬ (results.length = (results.foldl pingStep pingAccInit).Drop) := by
      rw [hdrop]
      omega
    have hsub : results.length - (results.foldl pingStep pingAccInit).Drop =
        (pingSuccesses results).length := by
      rw [hdrop]
      omega
    unfold Ping
    dsimp only
    rw [if_neg hc, hA, hS, hsub]
    rfl
  · intro a i rdnsF sum sumsq hlt hA hS
    have hne : ¬ (a.Total = a.Drop) := by omega
    unfold buildHop
    dsimp only
    rw [if_neg hne, hA, hS]
    rfl

/-- Witness for C8: a two-probe run with one 2 ms success, and a concrete
hop accumulator with one drop out of three probes. -/
theorem std_dev_same_formula_witness :
    (Ping [⟨"h", 2000000, 257⟩, ⟨"h", 0, 256⟩]).StdDev =
      specStdDev (sumLatMs (pingSuccesses [⟨"h", 2000000, 257⟩, ⟨"h", 0, 256⟩]))
        (sumSqLatMs (pingSuccesses [⟨"h", 2000000, 257⟩, ⟨"h", 0, 256⟩]))
        (pingSuccesses [⟨"h", 2000000, 257⟩, ⟨"h", 0, 256⟩]).length 2 ∧
    (buildHop ⟨[⟨"h", "", 257⟩], GFloat.fin 2, GFloat.fin 2, GFloat.fin 2,
        GFloat.fin 4, 1, 3⟩ 0 (fun _ => "")).StdDev = specStdDev 2 4 2 3 :=
  ⟨std_dev_same_formula.1 [⟨"h", 2000000, 257⟩, ⟨"h", 0, 256⟩]
      ⟨⟨"h", 2000000, 257⟩, by decide, rfl⟩,
   std_dev_same_formula.2 ⟨[⟨"h", "", 257⟩], GFloat.fin 2, GFloat.fin 2,
      GFloat.fin 2, GFloat.fin 4, 1, 3⟩ 0 (fun _ => "") 2 4 (by decide) rfl rfl⟩

/-- Filtering the table preserves key uniqueness. -/
theorem uniqueKeys_filter (t : ProbeTable) (p : ℕ × ICMPRequest → Bool)
    (hu : t.uniqueKeys) : ProbeTable.uniqueKeys (List.filter p t) :=
  List.Nodup.sublist (List.Sublist.map Prod.fst (List.filter_sublist t)) hu

/-- A member's key is counted at least once. -/
theorem keyCount_pos_of_mem {t : ProbeTable} {s : ℕ} {r : ICMPRequest}
    (h : (s, r) ∈ t) : 0 < keyCount t s :=
  List.countP_pos_iff.mpr ⟨(s, r), h, by simp⟩

/-- With unique keys, a key is counted at most once. -/
theorem keyCount_le_one {t : ProbeTable} (hu : t.uniqueKeys) (s : ℕ) :
    keyCount t s ≤ 1 := by
  unfold keyCount
  unfold ProbeTable.uniqueKeys at hu
  induction t with
  | nil => simp
  | cons p rest ih =>
    simp only [List.map_cons, List.nodup_cons] at hu
    obtain ⟨hnot, hrest⟩ := hu
    rw [List.countP_cons]
    by_cases h : p.1 = s
    · have hz : rest.countP (fun q => decide (q.1 = s)) = 0 := by
        rw [List.countP_eq_zero]
        intro q hq hqs
        apply hnot
        have : q.1 = s := by simpa using hqs
        rw [h, ← this]
        exact List.mem_map.mpr ⟨q, hq, rfl⟩
      simp [h, hz]
    · simp only [h, decide_eq_true_eq, if_neg h]
      simpa using ih hrest

/-- With unique keys, the value stored at a key is unique. -/
theorem table_value_unique {t : ProbeTable} (hu : t.uniqueKeys) {s : ℕ}
    {r1 r2 : ICMPRequest} (h1 : (s, r1) ∈ t) (h2 : (s, r2) ∈ t) : r1 = r2 := by
  induction t with
  | nil => cases h1
  | cons p rest ih =>
    unfold ProbeTable.uniqueKeys at hu
    simp only [List.map_cons, List.nodup_cons] at hu
    obtain ⟨hnot, hrest⟩ := hu
    rcases List.mem_cons.mp h1 with e1 | m1 <;> rcases List.mem_cons.mp h2 with e2 | m2
    · rw [← e1] at e2
      exact ((Prod.mk.injEq s r2 s r1).mp e2).2.symm
    · exfalso
      apply hnot
      rw [← e1]
      exact List.mem_map.mpr ⟨(s, r2), m2, rfl⟩
    · exfalso
      apply hnot
      rw [← e2]
      exact List.mem_map.mpr ⟨(s, r1), m1, rfl⟩
    · exact ih hrest m1 m2

/-- A successful get exhibits a member. -/
theorem get_mem {t : ProbeTable} {s : ℕ} {r : ICMPRequest}
    (h : t.get s = some r) : (s, r) ∈ t := by
  unfold ProbeTable.get at h
  cases hf : List.find? (fun p => decide (p.1 = s)) t with
  | none => rw [hf] at h; cases h
  | some p =>
    rw [hf] at h
    simp only [Option.map_some'] at h
    have hm := List.mem_of_find?_eq_some hf
    have hp : p.1 = s := by simpa using List.find?_some hf
    have hpr : p = (s, r) := by
      rcases p with ⟨a, b⟩
      simp only at hp
      injection h with h2
      simp only at h2
      rw [hp, h2]
    rw [← hpr]
    exact hm

/-- An absent key cannot be got. -/
theorem get_none_of_keyCount_zero {t : ProbeTable} {s : ℕ}
    (h : keyCount t s = 0) : t.get s = none := by
  cases hg : t.get s with
  | none => rfl
  | some r =>
    have := keyCount_pos_of_mem (get_mem hg)
    omega

/-- Removal empties the removed key. -/
theorem keyCount_remove_self (t : ProbeTable) (s : ℕ) :
    keyCount (t.remove s) s = 0 := by
  unfold keyCount ProbeTable.remove
  rw [List.countP_eq_zero]
  intro p hp
  have h2 := (List.mem_filter.mp hp).2
  simp only [decide_eq_true_eq] at h2 ⊢
  exact h2

/-- Removal leaves other keys' counts alone. -/
theorem keyCount_remove_other (t : ProbeTable) {s q : ℕ} (h : q ≠ s) :
    keyCount (t.remove q) s = keyCount t s := by
  unfold keyCount ProbeTable.remove
  rw [List.countP_filter]
  congr 1
  funext p
  by_cases hp : p.1 = s
  · have hq : ¬ (p.1 = q) := by rw [hp]; exact fun hh => h hh.symm
    simp [hp, hq]
    exact fun hh => h hh.symm
  · simp [hp]

/-- Removal of another key preserves membership. -/
theorem mem_remove_other {t : ProbeTable} {s q : ℕ} {r : ICMPRequest}
    (h : q ≠ s) : (s, r) ∈ t.remove q ↔ (s, r) ∈ t := by
  unfold ProbeTable.remove
  rw [List.mem_filter]
  constructor
  · exact fun hh => hh.1
  · intro hm
    refine ⟨hm, ?_⟩
    simp only [decide_eq_true_eq]
    exact fun hh => h (hh ▸ rfl)

/-- The sweep's deliveries for a key count the passed table entries with
that key. -/
theorem sweep_delivered_key (t : ProbeTable) (now : ℤ) (s : ℕ) :
    ((List.filter (fun p => decide (p.2.Passed now)) t).map
        (fun p => (p.1, timeoutResult))).countP (fun p => decide (p.1 = s)) =
      t.countP (fun p => decide (p.1 = s) && decide (p.2.Passed now)) := by
  rw [List.countP_map, List.countP_filter]
  rfl

/-- Any key-guarded count is bounded by the key's count. -/
theorem countP_and_le_keyCount (t : ProbeTable) (s : ℕ)
    (f : ℕ × ICMPRequest → Bool) :
    t.countP (fun p => decide (p.1 = s) && f p) ≤ keyCount t s :=
  List.countP_mono_left (fun a _ h => by
    simp only [Bool.and_eq_true] at h
    exact h.1)

/-- The sweep's delivery log grows by the passed entries of the key. -/
theorem sweep_dc (st : DispatchState) (now : ℤ) (s : ℕ) :
    deliveredCount (sweepTimeouts st now) s = deliveredCount st s +
      st.table.countP (fun p => decide (p.1 = s) && decide (p.2.Passed now)) := by
  unfold deliveredCount sweepTimeouts
  dsimp only
  rw [List.countP_append, sweep_delivered_key]

/-- The sweep's table keeps the not-passed entries of the key. -/
theorem sweep_kc (st : DispatchState) (now : ℤ) (s : ℕ) :
    keyCount (sweepTimeouts st now).table s =
      st.table.countP (fun p => decide (p.1 = s) && decide (¬ p.2.Passed now)) := by
  unfold keyCount sweepTimeouts
  dsimp only
  rw [List.countP_filter]

/-- Invariant preservation and progress for the timeout sweep. -/
theorem c1_sweep (s : ℕ) (req : ICMPRequest) (st : DispatchState) (now : ℤ)
    (hu : st.table.uniqueKeys)
    (hinv : ((s, req) ∈ st.table ∧ deliveredCount st s = 0) ∨
            (keyCount st.table s = 0 ∧ deliveredCount st s = 1)) :
    (sweepTimeouts st now).table.uniqueKeys ∧
    (((s, req) ∈ (sweepTimeouts st now).table ∧
        deliveredCount (sweepTimeouts st now) s = 0) ∨
      (keyCount (sweepTimeouts st now).table s = 0 ∧
        deliveredCount (sweepTimeouts st now) s = 1)) ∧
    (req.Deadline < now →
      keyCount (sweepTimeouts st now).table s = 0 ∧
        deliveredCount (sweepTimeouts st now) s = 1) := by
  have hu' : (sweepTimeouts st now).table.uniqueKeys := by
    unfold sweepTimeouts
    dsimp only
    exact uniqueKeys_filter _ _ hu
  refine ⟨hu', ?_⟩
  rcases hinv with ⟨hm, hd0⟩ | ⟨hk0, hd1⟩
  · by_cases hp : req.Passed now
    · have hone : st.table.countP
          (fun p => decide (p.1 = s) && decide (p.2.Passed now)) = 1 := by
        have hle := countP_and_le_keyCount st.table s (fun p => decide (p.2.Passed now))
        have h1 := keyCount_le_one hu s
        have hpos : 0 < st.table.countP
            (fun p => decide (p.1 = s) && decide (p.2.Passed now)) :=
          List.countP_pos_iff.mpr ⟨(s, req), hm, by simp [hp]⟩
        omega
      have hz : st.table.countP
          (fun p => decide (p.1 = s) && decide (¬ p.2.Passed now)) = 0 := by
        rw [List.countP_eq_zero]
        intro a ha hand
        simp only [Bool.and_eq_true, decide_eq_true_eq] at hand
        obtain ⟨has, hnp⟩ := hand
        have hma : (s, a.2) ∈ st.table := by
          rw [← has]
          exact ha
        have hval := table_value_unique hu hma hm
        rw [hval] at hnp
        exact hnp hp
      have hk' : keyCount (sweepTimeouts st now).table s = 0 := by
        rw [sweep_kc, hz]
      have hd' : deliveredCount (sweepTimeouts st now) s = 1 := by
        rw [sweep_dc, hone, hd0]
      exact ⟨Or.inr ⟨hk', hd'⟩, fun _ => ⟨hk', hd'⟩⟩
    · have hzp : st.table.countP
          (fun p => decide (p.1 = s) && decide (p.2.Passed now)) = 0 := by
        rw [List.countP_eq_zero]
        intro a ha hand
        simp only [Bool.and_eq_true, decide_eq_true_eq] at hand
        obtain ⟨has, hap⟩ := hand
        have hma : (s, a.2) ∈ st.table := by
          rw [← has]
          exact ha
        have hval := table_value_unique hu hma hm
        rw [hval] at hap
        exact hp hap
      have hd' : deliveredCount (sweepTimeouts st now) s = 0 := by
        rw [sweep_dc, hzp, hd0]
      have hm' : (s, req) ∈ (sweepTimeouts st now).table := by
        unfold sweepTimeouts
        dsimp only
        exact List.mem_filter.mpr ⟨hm, by simpa using hp⟩
      exact ⟨Or.inl ⟨hm', hd'⟩, fun hh => absurd hh hp⟩
  · have hzp : st.table.countP
        (fun p => decide (p.1 = s) && decide (p.2.Passed now)) = 0 := by
      have := countP_and_le_keyCount st.table s (fun p => decide (p.2.Passed now))
      omega
    have hzn : st.table.countP
        (fun p => decide (p.1 = s) && decide (¬ p.2.Passed now)) = 0 := by
      have := countP_and_le_keyCount st.table s (fun p => decide (¬ p.2.Passed now))
      omega
    have hk' : keyCount (sweepTimeouts st now).table s = 0 := by
      rw [sweep_kc, hzn]
    have hd' : deliveredCount (sweepTimeouts st now) s = 1 := by
      rw [sweep_dc, hzp, hd1]
    exact ⟨Or.inr ⟨hk', hd'⟩, fun _ => ⟨hk', hd'⟩⟩

/-- Invariant preservation for the response-processing phase. -/
theorem c1_resp (s : ℕ) (req : ICMPRequest) (st : DispatchState)
    (resp : ICMPResponse)
    (hu : st.table.uniqueKeys)
    (hinv : ((s, req) ∈ st.table ∧ deliveredCount st s = 0) ∨
            (keyCount st.table s = 0 ∧ deliveredCount st s = 1)) :
    (processResponse st resp).table.uniqueKeys ∧
    (((s, req) ∈ (processResponse st resp).table ∧
        deliveredCount (processResponse st resp) s = 0) ∨
      (keyCount (processResponse st resp).table s = 0 ∧
        deliveredCount (processResponse st resp) s = 1)) := by
  unfold processResponse
  cases hg : st.table.get resp.Seq with
  | none => exact ⟨hu, hinv⟩
  | some request =>
    dsimp only
    cases hdel : request.Deliver (some resp) with
    | none => exact ⟨hu, hinv⟩
    | some res =>
      dsimp only
      by_cases hqs : resp.Seq = s
      · rcases hinv with ⟨hm, hd0⟩ | ⟨hk0, hd1⟩
        · refine ⟨uniqueKeys_filter _ _ hu, Or.inr ⟨?_, ?_⟩⟩
          · show keyCount (st.table.remove resp.Seq) s = 0
            rw [hqs]
            exact keyCount_remove_self st.table s
          · show (st.delivered ++ [(resp.Seq, res)]).countP
                (fun p => decide (p.1 = s)) = 1
            rw [List.countP_append]
            have hd0' : st.delivered.countP (fun p => decide (p.1 = s)) = 0 := hd0
            rw [hd0']
            simp [hqs]
        · exfalso
          have := get_none_of_keyCount_zero hk0
          rw [hqs] at hg
          rw [this] at hg
          cases hg
      · have hceq : keyCount (st.table.remove resp.Seq) s = keyCount st.table s :=
          keyCount_remove_other st.table hqs
        have hdeq : (st.delivered ++ [(resp.Seq, res)]).countP
            (fun p => decide (p.1 = s)) = deliveredCount st s := by
          rw [List.countP_append]
          simp [hqs]
          rfl
        refine ⟨uniqueKeys_filter _ _ hu, ?_⟩
        rcases hinv with ⟨hm, hd0⟩ | ⟨hk0, hd1⟩
        · refine Or.inl ⟨?_, ?_⟩
          · show (s, req) ∈ st.table.remove resp.Seq
            exact (mem_remove_other hqs).mpr hm
          · show (st.delivered ++ [(resp.Seq, res)]).countP
                (fun p => decide (p.1 = s)) = 0
            rw [hdeq]
            exact hd0
        · refine Or.inr ⟨?_, ?_⟩
          · show keyCount (st.table.remove resp.Seq) s = 0
            rw [hceq]
            exact hk0
          · show (st.delivered ++ [(resp.Seq, res)]).countP
                (fun p => decide (p.1 = s)) = 1
            rw [hdeq]
            exact hd1

/-- Invariant preservation and progress for one full dispatcher iteration. -/
theorem c1_step (s : ℕ) (req : ICMPRequest) (st : DispatchState) (ev : DispEvent)
    (hu : st.table.uniqueKeys)
    (hinv : ((s, req) ∈ st.table ∧ deliveredCount st s = 0) ∨
            (keyCount st.table s = 0 ∧ deliveredCount st s = 1)) :
    (dispStep st ev).table.uniqueKeys ∧
    (((s, req) ∈ (dispStep st ev).table ∧ deliveredCount (dispStep st ev) s = 0) ∨
      (keyCount (dispStep st ev).table s = 0 ∧
        deliveredCount (dispStep st ev) s = 1)) ∧
    (req.Deadline < eventNow ev →
      keyCount (dispStep st ev).table s = 0 ∧
        deliveredCount (dispStep st ev) s = 1) := by
  cases ev with
  | tick now => exact c1_sweep s req st now hu hinv
  | resp r now =>
    obtain ⟨hu1, hinv1⟩ := c1_resp s req st r hu hinv
    exact c1_sweep s req (processResponse st r) now hu1 hinv1

/-- Once a key is gone with one delivery, a step keeps it gone with one
delivery. -/
theorem c1_step_absorb (s : ℕ) (st : DispatchState) (ev : DispEvent)
    (hk : keyCount st.table s = 0) (hd : deliveredCount st s = 1) :
    keyCount (dispStep st ev).table s = 0 ∧
      deliveredCount (dispStep st ev) s = 1 := by
  have sweep_aux : ∀ st' : DispatchState, keyCount st'.table s = 0 →
      deliveredCount st' s = 1 → ∀ now : ℤ,
      keyCount (sweepTimeouts st' now).table s = 0 ∧
        deliveredCount (sweepTimeouts st' now) s = 1 := by
    intro st' hk' hd' now
    have hzp : st'.table.countP
        (fun p => decide (p.1 = s) && decide (p.2.Passed now)) = 0 := by
      have := countP_and_le_keyCount st'.table s (fun p => decide (p.2.Passed now))
      omega
    have hzn : st'.table.countP
        (fun p => decide (p.1 = s) && decide (¬ p.2.Passed now)) = 0 := by
      have := countP_and_le_keyCount st'.table s (fun p => decide (¬ p.2.Passed now))
      omega
    constructor
    · rw [sweep_kc, hzn]
    · rw [sweep_dc, hzp, hd']
  cases ev with
  | tick now => exact sweep_aux st hk hd now
  | resp r now =>
    have hstep : keyCount (processResponse st r).table s = 0 ∧
        deliveredCount (processResponse st r) s = 1 := by
      unfold processResponse
      cases hg : st.table.get r.Seq with
      | none => exact ⟨hk, hd⟩
      | some request =>
        dsimp only
        cases hdel : request.Deliver (some r) with
        | none => exact ⟨hk, hd⟩
        | some res =>
          dsimp only
          by_cases hqs : r.Seq = s
          · exfalso
            have := get_none_of_keyCount_zero hk
            rw [hqs] at hg
            rw [this] at hg
            cases hg
          · constructor
            · show keyCount (st.table.remove r.Seq) s = 0
              rw [keyCount_remove_other st.table hqs]
              exact hk
            · show (st.delivered ++ [(r.Seq, res)]).countP
                  (fun p => decide (p.1 = s)) = 1
              rw [List.countP_append]
              simp [hqs]
              exact hd
    exact sweep_aux (processResponse st r) hstep.1 hstep.2 now

/-- Absorption along a whole run. -/
theorem c1_run_absorb (s : ℕ) (evs : List DispEvent) :
    ∀ st : DispatchState, keyCount st.table s = 0 → deliveredCount st s = 1 →
      keyCount (dispRun st evs).table s = 0 ∧
        deliveredCount (dispRun st evs) s = 1 := by
  induction evs with
  | nil => intro st hk hd; exact ⟨hk, hd⟩
  | cons ev rest ih =>
    intro st hk hd
    obtain ⟨hk1, hd1⟩ := c1_step_absorb s st ev hk hd
    exact ih (dispStep st ev) hk1 hd1

/-- C1: a request sitting in the outstanding-probe table with no delivery
yet (the state `Issue` leaves it in) receives, over any sequence of
dispatcher iterations, at most one result — at any point it is either still
pending with zero deliveries or gone with exactly one — and as soon as any
iteration runs at a time past its deadline, it has received exactly one
result and left the table (so no second delivery can ever occur). -/
theorem icmp_delivery_exactly_once (evs : List DispEvent) (st0 : DispatchState)
    (s : ℕ) (req : ICMPRequest)
    (hu : st0.table.uniqueKeys)
    (hmem : (s, req) ∈ st0.table)
    (hd0 : deliveredCount st0 s = 0) :
    (((s, req) ∈ (dispRun st0 evs).table ∧ deliveredCount (dispRun st0 evs) s = 0) ∨
      (keyCount (dispRun st0 evs).table s = 0 ∧
        deliveredCount (dispRun st0 evs) s = 1)) ∧
    (∀ ev ∈ evs, req.Deadline < eventNow ev →
      keyCount (dispRun st0 evs).table s = 0 ∧
        deliveredCount (dispRun st0 evs) s = 1) := by
  induction evs generalizing st0 with
  | nil =>
    refine ⟨Or.inl ⟨hmem, hd0⟩, ?_⟩
    intro ev hev
    cases hev
  | cons ev rest ih =>
    obtain ⟨hu1, hinv1, hprog⟩ := c1_step s req st0 ev hu (Or.inl ⟨hmem, hd0⟩)
    have hrun : dispRun st0 (ev :: rest) = dispRun (dispStep st0 ev) rest := rfl
    rcases hinv1 with ⟨hm1, hz1⟩ | ⟨hk1, hd1⟩
    · obtain ⟨hfin, hevs⟩ := ih (dispStep st0 ev) hu1 hm1 hz1
      rw [hrun]
      refine ⟨hfin, ?_⟩
      intro e he hdead
      rcases List.mem_cons.mp he with heq | hrest
      · obtain ⟨hka, hda⟩ := hprog (heq ▸ hdead)
        exact c1_run_absorb s rest (dispStep st0 ev) hka hda
      · exact hevs e hrest hdead
    · have habs := c1_run_absorb s rest (dispStep st0 ev) hk1 hd1
      rw [hrun]
      exact ⟨Or.inr habs, fun _ _ _ => habs⟩

/-- Witness for C1: a single-entry table (seq 3, deadline 5) and one tick at
time 10; the sink has received exactly one result and the entry is gone. -/
theorem icmp_delivery_exactly_once_witness :
    keyCount (dispRun ⟨[(3, ⟨3, 1, "10.0.0.1", 5, 0⟩)], []⟩
        [DispEvent.tick 10]).table 3 = 0 ∧
      deliveredCount (dispRun ⟨[(3, ⟨3, 1, "10.0.0.1", 5, 0⟩)], []⟩
        [DispEvent.tick 10]) 3 = 1 :=
  (icmp_delivery_exactly_once [DispEvent.tick 10]
      ⟨[(3, ⟨3, 1, "10.0.0.1", 5, 0⟩)], []⟩ 3 ⟨3, 1, "10.0.0.1", 5, 0⟩
      (by unfold ProbeTable.uniqueKeys; decide) (by decide) (by decide)).2
    (DispEvent.tick 10) (by decide) (by decide)

end StarPing
